import Mathlib

/-!
Verification development for a legal-precedent retrieval system.

The system consists of two Python modules: an interactive application
(app.py) offering a three-tier cascading retrieval (graph search with an
outcome filter, graph search without the filter, vector-only search), and
an offline benchmark (benchmark.py) comparing vector-only retrieval with
graph-augmented retrieval under a hard/soft match scoring rule.

The retrieval work is performed by Cypher queries over a Neo4j store that
holds CASE nodes, directed CITES edges between them, and TEXT nodes
attached by HAS_TEXT edges, plus a vector index over case texts.  This
file embeds those queries shallowly: the graph is an explicit structure,
the vector-index answer is an input list of (node id, similarity score)
pairs, and each Cypher query becomes a Lean function on these data
(row generation by pattern matching, implicit grouping by the non
aggregated return expressions, aggregation, ordering, limiting).

Similarity scores are modelled as rational numbers.
-/

/-! ### Generic helpers -/

/-- Is the first list an initial segment of the second. -/
def leadsList : List Char → List Char → Bool
  | [], _ => true
  | _ :: _, [] => false
  | a :: as, b :: bs => a == b && leadsList as bs

/-- Substring containment on character lists, as in the Cypher CONTAINS operator. -/
def strContains (hay pat : List Char) : Bool :=
  hay.tails.any (fun t => leadsList pat t)

/-- Lower-casing of a string, character by character, as Cypher toLower and
Python str.lower act on the class of strings appearing in this data set. -/
def lowerChars (s : String) : List Char :=
  s.toList.map Char.toLower

/-- Python str.strip: remove leading and trailing whitespace. -/
def trimChars (l : List Char) : List Char :=
  ((l.dropWhile Char.isWhitespace).reverse.dropWhile Char.isWhitespace).reverse

/-- Maximum of a list of rationals, as the Cypher max() aggregate over a
non-empty group (the empty case never arises; 0 is a junk value). -/
def listMax : List ℚ → ℚ
  | [] => 0
  | [x] => x
  | x :: y :: xs => max x (listMax (y :: xs))

/-- Sum of a list of rationals, as the Cypher sum() aggregate. -/
def listSum : List ℚ → ℚ
  | [] => 0
  | [x] => x
  | x :: y :: xs => x + listSum (y :: xs)

/-- Python int() applied to an exact rational: truncation toward zero. -/
def ratTrunc (q : ℚ) : ℤ :=
  q.num.tdiv (q.den : ℤ)

/-! ### The graph data model

CASE nodes carry the properties read by the queries; CITES edges are pairs
of node ids; each HAS_TEXT edge is a pair of the case id and the text
value of the attached TEXT node. -/

/-- A CASE node of the Neo4j store: elementId, name, offense and
decisionSummary properties (the latter two nullable). -/
structure CaseNode where
  cid : Nat
  name : String
  offense : Option String
  decisionSummary : Option String
deriving DecidableEq

/-- The Neo4j store: CASE nodes, CITES edges, HAS_TEXT edges to TEXT nodes
(represented by their text value). -/
structure Graph where
  cases : List CaseNode
  cites : List (Nat × Nat)
  texts : List (Nat × String)
deriving DecidableEq

/-- Resolve a node id to a CASE node (models matching the :CASE label and
reading its properties). -/
def findCase (g : Graph) (i : Nat) : Option CaseNode :=
  g.cases.find? (fun c => c.cid == i)

/-- The name property of a node, empty when absent. -/
def nameOf (g : Graph) (i : Nat) : String :=
  ((findCase g i).map (fun c => c.name)).getD ""

/-- The text values of the TEXT nodes attached to case i by HAS_TEXT. -/
def textsOf (g : Graph) (i : Nat) : List String :=
  (g.texts.filter (fun e => e.1 == i)).map (fun e => e.2)

/-- Outgoing CITES edges of a node. -/
def edgesFrom (g : Graph) (a : Nat) : List (Nat × Nat) :=
  g.cites.filter (fun e => e.1 == a)

/-- All CITES paths of length 1 or 2 leaving node a, with the Cypher
relationship-uniqueness rule: the two edges of a 2-hop path are distinct.
A path is its list of edges. -/
def pathsFrom (g : Graph) (a : Nat) : List (List (Nat × Nat)) :=
  (edgesFrom g a).map (fun e => [e]) ++
    (edgesFrom g a).flatMap (fun e1 =>
      ((edgesFrom g e1.2).filter (fun e2 => !(e2 == e1))).map (fun e2 => [e1, e2]))

/-- End node of a path. -/
def pathTarget : List (Nat × Nat) → Nat
  | [] => 0
  | [e] => e.2
  | _ :: rest => pathTarget rest

/-- Does some 1..2-hop CITES path lead from a to tgt. -/
def reaches (g : Graph) (a tgt : Nat) : Bool :=
  (pathsFrom g a).any (fun p => pathTarget p == tgt)

/-! ### app.py: graph_rag_search (Gold and Silver tiers)

Embeds the Cypher query of graph_rag_search: the vector index call is
modelled by the input list anchors of (node id, score) pairs; the MATCH
over CITES*1..2 generates one row per (anchor, path); the optional filter
clause restricts the precedent by keywords in its decisionSummary; the
OPTIONAL MATCH on HAS_TEXT multiplies rows by attached text values (one
row with null text when there are none); the RETURN groups rows by the non
aggregated expressions (precedent id and text value determine them all)
and aggregates count(anchorCase), collect(DISTINCT anchorCase.name)[..3]
and max(score); finally ORDER BY citation_count DESC, relevance_score
DESC and LIMIT 5. -/

/-- The WHERE clause built by graph_rag_search from strategy and
apply_filter, applied to the precedent. -/
def decisionHas (c : CaseNode) (kw : String) : Bool :=
  match c.decisionSummary with
  | none => false
  | some d => strContains (lowerChars d) kw.toList

/-- Outcome filter of graph_rag_search: with apply_filter, the defense
strategy keeps precedents whose lowered decisionSummary contains reverse
or acquit, any other strategy keeps those containing affirm; without
apply_filter no WHERE clause is emitted and every row passes. -/
def passesFilter (strategy : String) (apply_filter : Bool) (c : CaseNode) : Bool :=
  if !apply_filter then true
  else if strategy == "defense" then decisionHas c "reverse" || decisionHas c "acquit"
  else decisionHas c "affirm"

/-- One matched row of the graph_rag_search query before grouping. -/
structure Row where
  anchorId : Nat
  anchorName : String
  score : ℚ
  prec : CaseNode
  text : Option String
deriving DecidableEq

/-- Build the row for one (anchor, path) pair: the path end must be a CASE
node and pass the filter clause. -/
def buildRow (g : Graph) (strategy : String) (apply_filter : Bool) (a : Nat × ℚ)
    (p : List (Nat × Nat)) : Option Row :=
  match findCase g (pathTarget p) with
  | none => none
  | some c =>
    if passesFilter strategy apply_filter c then
      some ⟨a.1, nameOf g a.1, a.2, c, none⟩
    else none

/-- All rows of MATCH (anchorCase)-[:CITES*1..2]->(precedent:CASE) with
the filter clause, one per (anchor, path) pair. -/
def pathRows (g : Graph) (anchors : List (Nat × ℚ)) (strategy : String)
    (apply_filter : Bool) : List Row :=
  anchors.flatMap (fun a => (pathsFrom g a.1).filterMap (buildRow g strategy apply_filter a))

/-- OPTIONAL MATCH (precedent)-[:HAS_TEXT]->(precedentText:TEXT) for one
row: one output row per attached text value, or the row itself (null
text) when there is none. -/
def withTexts (g : Graph) (r : Row) : List Row :=
  match textsOf g r.prec.cid with
  | [] => [r]
  | ts => ts.map (fun t => { r with text := some t })

/-- OPTIONAL MATCH applied across all rows. -/
def expandTexts (g : Graph) (rows : List Row) : List Row :=
  rows.flatMap (withTexts g)

/-- The implicit Cypher grouping key of the RETURN clause: the non
aggregated expressions are elementId(precedent), its name, offense and
decisionSummary (all determined by the id) and the text value. -/
def groupKey (r : Row) : Nat × Option String :=
  (r.prec.cid, r.text)

/-- One record of the graph_rag_search answer. -/
structure SearchResult where
  id : Nat
  title : String
  offense : Option String
  decision : Option String
  full_text : Option String
  citation_count : Nat
  found_via : List String
  relevance_score : ℚ
deriving DecidableEq

/-- Aggregate the rows of one group into a result record:
count(anchorCase) counts the rows, collect(DISTINCT anchorCase.name)[..3]
takes three distinct anchor names, max(score) the largest score. -/
def mkGroup (rows : List Row) (k : Nat × Option String) : Option SearchResult :=
  match rows.filter (fun r => groupKey r == k) with
  | [] => none
  | r0 :: rest => some
      { id := k.1
        title := r0.prec.name
        offense := r0.prec.offense
        decision := r0.prec.decisionSummary
        full_text := k.2
        citation_count := (r0 :: rest).length
        found_via := (((r0 :: rest).map (fun r => r.anchorName)).dedup).take 3
        relevance_score := listMax ((r0 :: rest).map (fun r => r.score)) }

/-- ORDER BY citation_count DESC, relevance_score DESC. -/
abbrev resGE (a b : SearchResult) : Prop :=
  b.citation_count < a.citation_count ∨
    (a.citation_count = b.citation_count ∧ b.relevance_score ≤ a.relevance_score)

instance : IsTotal SearchResult resGE where
  total x y := by
    rcases Nat.lt_trichotomy x.citation_count y.citation_count with h | h | h
    · exact Or.inr (Or.inl h)
    · rcases le_total y.relevance_score x.relevance_score with hc | hc
      · exact Or.inl (Or.inr ⟨h, hc⟩)
      · exact Or.inr (Or.inr ⟨h.symm, hc⟩)
    · exact Or.inl (Or.inl h)

instance : IsTrans SearchResult resGE where
  trans x y z hxy hyz := by
    rcases hxy with h1 | ⟨h1, h1c⟩ <;> rcases hyz with h2 | ⟨h2, h2c⟩
    · exact Or.inl (h2.trans h1)
    · exact Or.inl (h2 ▸ h1)
    · exact Or.inl (h1 ▸ h2)
    · exact Or.inr ⟨h1.trans h2, h2c.trans h1c⟩

/-- The rows of the graph_rag_search query after the OPTIONAL MATCH. -/
def searchRows (g : Graph) (anchors : List (Nat × ℚ)) (strategy : String)
    (apply_filter : Bool) : List Row :=
  expandTexts g (pathRows g anchors strategy apply_filter)

/-- graph_rag_search of app.py (Gold tier with apply_filter, Silver tier
without): group the matched rows, aggregate, order, keep the top 5. -/
def graph_rag_search (g : Graph) (anchors : List (Nat × ℚ)) (strategy : String)
    (apply_filter : Bool) : List SearchResult :=
  (List.insertionSort resGE
    ((((searchRows g anchors strategy apply_filter).map groupKey).dedup).filterMap
      (mkGroup (searchRows g anchors strategy apply_filter)))).take 5

/-! ### app.py: vector_only_search (Bronze tier)

Embeds the Cypher query of vector_only_search: one row per index hit
(times attached text values through the OPTIONAL MATCH), with literal
0 as citation_count and [] as found_via, ordered by score descending.
There is no grouping (no aggregate appears in the RETURN clause). -/

/-- ORDER BY score DESC. -/
abbrev scoreGE (a b : SearchResult) : Prop :=
  b.relevance_score ≤ a.relevance_score

instance : IsTotal SearchResult scoreGE where
  total x y := le_total y.relevance_score x.relevance_score

instance : IsTrans SearchResult scoreGE where
  trans _ _ _ hxy hyz := hyz.trans hxy

/-- The rows contributed by one index hit in vector_only_search. -/
def vecRecords (g : Graph) (i : Nat) (s : ℚ) : List SearchResult :=
  let c := (findCase g i).getD ⟨i, "", none, none⟩
  match textsOf g i with
  | [] => [{ id := i, title := c.name, offense := c.offense, decision := c.decisionSummary,
             full_text := none, citation_count := 0, found_via := [], relevance_score := s }]
  | ts => ts.map (fun t =>
      { id := i, title := c.name, offense := c.offense, decision := c.decisionSummary,
        full_text := some t, citation_count := 0, found_via := [], relevance_score := s })

/-- vector_only_search of app.py: the index answer idx itself is the
result set, decorated with case properties and text. -/
def vector_only_search (g : Graph) (idx : List (Nat × ℚ)) : List SearchResult :=
  List.insertionSort scoreGE (idx.flatMap (fun a => vecRecords g a.1 a.2))

/-! ### app.py: confidence display and the cascade in main -/

/-- The displayed confidence, from main of app.py:
conf = int(relevance_score * 100) + citation_count * 5; conf = min(conf, 99).
Python int() truncates toward zero, which on an exact rational is ratTrunc. -/
def confidence (rs : ℚ) (cc : Nat) : ℤ :=
  min (ratTrunc (rs * 100) + (cc : ℤ) * 5) 99

/-- Outcome of the cascade in main: the chosen results, the tier label,
and the list of tiers whose search was actually invoked. -/
structure CascadeResult where
  results : List SearchResult
  method : String
  invoked : List String
deriving DecidableEq

/-- The cascade of main in app.py: Gold is always queried; Silver only
when Gold came back empty; Bronze only when Silver also came back empty.
The first non-empty tier (or Bronze regardless) is final. -/
def cascade (gold silver bronze : List SearchResult) : CascadeResult :=
  if gold ≠ [] then ⟨gold, "Gold", ["Gold"]⟩
  else if silver ≠ [] then ⟨silver, "Silver", ["Gold", "Silver"]⟩
  else ⟨bronze, "Bronze", ["Gold", "Silver", "Bronze"]⟩

/-- The cascade as main runs it: Gold and Silver are graph_rag_search with
and without the filter, Bronze is vector_only_search, all on the same
embedding and hence on the same vector-index answer idx. -/
def runCascade (g : Graph) (idx : List (Nat × ℚ)) (strategy : String) : CascadeResult :=
  cascade (graph_rag_search g idx strategy true)
    (graph_rag_search g idx strategy false)
    (vector_only_search g idx)

/-- The try/except wrapper around each query (app.py lines 85-90 and
122-127): a failed session degrades to the empty list. -/
def runTier : Except String (List SearchResult) → List SearchResult
  | Except.error _ => []
  | Except.ok rs => rs

/-- The cascade over fallible tiers: each tier is first degraded by its
own try/except, then the cascade of main decides. -/
def cascadeE (goldE silverE bronzeE : Except String (List SearchResult)) : CascadeResult :=
  cascade (runTier goldE) (runTier silverE) (runTier bronzeE)

/-- The content submitted to the embedding service by get_embedding of
app.py: the text itself, unmodified (content=text). -/
def appEmbedContent (text : List Char) : List Char :=
  text

/-! ### benchmark.py -/

/-- The content submitted to the embedding service by get_embedding of
benchmark.py: content=text[:9000]. -/
def benchEmbedContent (text : List Char) : List Char :=
  text.take 9000

/-- An {id, offense} record, the shape shared by ground-truth entries and
retrieved entries in benchmark.py. -/
structure CaseRef where
  id : String
  offense : Option String
deriving DecidableEq

/-- Python truthiness of an optional string. -/
def pyTruthy : Option String → Bool
  | none => false
  | some s => !(s == "")

/-- str(x).strip().lower() of benchmark.py, on a present offense. -/
def normOffense (s : String) : List Char :=
  (trimChars s.toList).map Char.toLower

/-- found_offense of calculate_score: the normalized offense when truthy,
else the empty string. -/
def foundOffense (o : Option String) : List Char :=
  match o with
  | none => []
  | some s => if s == "" then [] else normOffense s

/-- The set true_offenses of calculate_score: normalized offenses of the
ground-truth items whose offense is truthy. -/
def trueOffenses (gt : List CaseRef) : List (List Char) :=
  (gt.filter (fun i => pyTruthy i.offense)).map (fun i => normOffense (i.offense.getD ""))

/-- The scan loop of calculate_score: return 1.0 at the first hard id
match; remember 0.5 once a soft offense match is seen; else keep the
accumulator (initially 0.0). -/
def scoreLoop (trueIds : List String) (trueOffs : List (List Char)) :
    List CaseRef → ℚ → ℚ
  | [], acc => acc
  | f :: rest, acc =>
    if f.id ∈ trueIds then 1
    else if foundOffense f.offense ∈ trueOffs then scoreLoop trueIds trueOffs rest (mkRat 1 2)
    else scoreLoop trueIds trueOffs rest acc

/-- calculate_score of benchmark.py. -/
def calculate_score (gt : List CaseRef) (retrieved : List CaseRef) : ℚ :=
  scoreLoop (gt.map (fun i => i.id)) (trueOffenses gt) retrieved 0

/-! ### benchmark.py: retrieve_cases

Embeds the two Cypher queries of retrieve_cases.  Graph mode: anchors are
the index hits other than the source case; rows come from CITES*1..2
paths to precedents with a non-null offense; grouping is by (precedent
id, offense), both determined by the id; the aggregate is sum(score);
ORDER BY score DESC LIMIT 10.  Vector mode: index hits other than the
source case with non-null offense, ORDER BY score DESC LIMIT 10.  Either
way the returned records are {id, offense}. -/

/-- One matched row of the graph-mode query of retrieve_cases. -/
structure BRow where
  anchorId : Nat
  score : ℚ
  prec : CaseNode
deriving DecidableEq

/-- Row for one (anchor, path) pair in graph mode: the precedent must be
a CASE with non-null offense. -/
def bBuildRow (g : Graph) (a : Nat × ℚ) (p : List (Nat × Nat)) : Option BRow :=
  match findCase g (pathTarget p) with
  | none => none
  | some c => if c.offense.isSome then some ⟨a.1, a.2, c⟩ else none

/-- All graph-mode rows: the WHERE elementId(anchorCase) <> original_id
clause removes the source case from the anchors only. -/
def bGraphRows (g : Graph) (idx : List (Nat × ℚ)) (orig : Nat) : List BRow :=
  (idx.filter (fun a => !(a.1 == orig))).flatMap
    (fun a => (pathsFrom g a.1).filterMap (bBuildRow g a))

/-- Aggregate one graph-mode group: sum(score) over its rows. -/
def bMkGroup (rows : List BRow) (i : Nat) : Option (Nat × Option String × ℚ) :=
  match rows.filter (fun r => r.prec.cid == i) with
  | [] => none
  | r0 :: rest => some (i, r0.prec.offense, listSum ((r0 :: rest).map (fun r => r.score)))

/-- ORDER BY score DESC for the benchmark queries. -/
abbrev bScoreGE (a b : Nat × Option String × ℚ) : Prop :=
  b.2.2 ≤ a.2.2

instance : IsTotal (Nat × Option String × ℚ) bScoreGE where
  total x y := le_total y.2.2 x.2.2

instance : IsTrans (Nat × Option String × ℚ) bScoreGE where
  trans _ _ _ hxy hyz := hyz.trans hxy

/-- One row of the vector-mode query of retrieve_cases: the index hit
must differ from the source case and carry a non-null offense. -/
def bVecRecord (g : Graph) (orig : Nat) (a : Nat × ℚ) : Option (Nat × Option String × ℚ) :=
  match findCase g a.1 with
  | none => none
  | some c =>
    if !(a.1 == orig) && c.offense.isSome then some (a.1, c.offense, a.2)
    else none

/-- retrieve_cases of benchmark.py, returning the {id, offense} pairs. -/
def retrieve_cases (g : Graph) (idx : List (Nat × ℚ)) (orig : Nat)
    (use_graph : Bool) : List (Nat × Option String) :=
  if use_graph then
    (((List.insertionSort bScoreGE
        ((((bGraphRows g idx orig).map (fun r => r.prec.cid)).dedup).filterMap
          (bMkGroup (bGraphRows g idx orig)))).take 10).map
      (fun x => (x.1, x.2.1)))
  else
    (((List.insertionSort bScoreGE (idx.filterMap (bVecRecord g orig))).take 10).map
      (fun x => (x.1, x.2.1)))

/-! ### Definitions taken from the words of the spec, for comparison -/

/-- Modelled from the spec: the similarity scores of the anchors whose
1-2-hop traversal reached the target. -/
def reachingScores (g : Graph) (anchors : List (Nat × ℚ)) (tgt : Nat) : List ℚ :=
  (anchors.filter (fun a => reaches g a.1 tgt)).map (fun a => a.2)

/-- Modelled from the spec: the number of distinct anchor cases whose
1-2-hop traversal reached the target. -/
def numDistinctAnchorsReaching (g : Graph) (anchors : List (Nat × ℚ)) (tgt : Nat) : Nat :=
  (((anchors.map (fun a => a.1)).dedup).filter (fun a => reaches g a tgt)).length

/-- The number of (anchor, path) pairs whose 1-2-hop path ends at the
target: one contribution per distinct citation path, per anchor entry. -/
def numAnchorPathsTo (g : Graph) (anchors : List (Nat × ℚ)) (tgt : Nat) : Nat :=
  ((anchors.map (fun a =>
    ((pathsFrom g a.1).filter (fun p => pathTarget p == tgt)).length)).sum)

/-- Modelled from the spec: confidence = min(round(relevance_score * 100)
+ citation_count * 5, 99), with round half up evaluated exactly:
round(q) = floor(q + 1/2) and rs * 100 = (100 num) / den, so
round(rs * 100) = (200 num + den) fdiv (2 den).  Any usual rounding
convention agrees away from exact halves. -/
def confidenceSpec (rs : ℚ) (cc : Nat) : ℤ :=
  min ((2 * (rs.num * 100) + (rs.den : ℤ)).fdiv (2 * (rs.den : ℤ)) + (cc : ℤ) * 5) 99

/-! ### Helper lemmas: listMax -/

theorem listMax_mem : ∀ {l : List ℚ}, l ≠ [] → listMax l ∈ l
  | [], h => absurd rfl h
  | [x], _ => by simp [listMax]
  | x :: y :: xs, _ => by
    rw [listMax]
    rcases max_choice x (listMax (y :: xs)) with hm | hm
    · rw [hm]; exact List.mem_cons_self _ _
    · rw [hm]; exact List.mem_cons_of_mem _ (listMax_mem (by simp))

theorem le_listMax : ∀ {l : List ℚ} {x : ℚ}, x ∈ l → x ≤ listMax l
  | [], x, h => by simp at h
  | [y], x, h => by
    rw [List.mem_singleton] at h
    subst h
    exact le_of_eq rfl
  | y :: z :: xs, x, h => by
    rw [listMax]
    rcases List.mem_cons.1 h with h1 | h1
    · subst h1; exact le_max_left _ _
    · exact le_trans (le_listMax h1) (le_max_right _ _)

theorem listMax_congr {l1 l2 : List ℚ} (h1 : l1 ≠ []) (h2 : l2 ≠ [])
    (s12 : ∀ x ∈ l1, x ∈ l2) (s21 : ∀ x ∈ l2, x ∈ l1) : listMax l1 = listMax l2 :=
  le_antisymm (le_listMax (s12 _ (listMax_mem h1))) (le_listMax (s21 _ (listMax_mem h2)))

/-! ### Helper lemmas: the graph_rag_search pipeline -/

theorem findCase_cid {g : Graph} {i : Nat} {c : CaseNode} (h : findCase g i = some c) :
    c.cid = i := by
  have := List.find?_some h
  simpa using this

theorem buildRow_eq_some {g : Graph} {strategy : String} {apply_filter : Bool}
    {a : Nat × ℚ} {p : List (Nat × Nat)} {r : Row}
    (h : buildRow g strategy apply_filter a p = some r) :
    findCase g (pathTarget p) = some r.prec ∧
    passesFilter strategy apply_filter r.prec = true ∧
    r.anchorId = a.1 ∧ r.anchorName = nameOf g a.1 ∧ r.score = a.2 ∧ r.text = none ∧
    r.prec.cid = pathTarget p := by
  unfold buildRow at h
  cases hf : findCase g (pathTarget p) with
  | none => rw [hf] at h; cases h
  | some c =>
    rw [hf] at h
    dsimp only at h
    by_cases hp : passesFilter strategy apply_filter c = true
    · rw [if_pos hp] at h
      injection h with h
      subst h
      exact ⟨rfl, hp, rfl, rfl, rfl, rfl, findCase_cid hf⟩
    · rw [if_neg hp] at h; cases h

theorem buildRow_of_pass {g : Graph} {strategy : String} {apply_filter : Bool}
    {a : Nat × ℚ} {p : List (Nat × Nat)} {c : CaseNode}
    (hf : findCase g (pathTarget p) = some c)
    (hp : passesFilter strategy apply_filter c = true) :
    buildRow g strategy apply_filter a p = some ⟨a.1, nameOf g a.1, a.2, c, none⟩ := by
  unfold buildRow
  rw [hf]
  dsimp only
  rw [if_pos hp]

theorem mem_pathRows {g : Graph} {anchors : List (Nat × ℚ)} {strategy : String}
    {apply_filter : Bool} {r : Row} :
    r ∈ pathRows g anchors strategy apply_filter ↔
      ∃ a ∈ anchors, ∃ p ∈ pathsFrom g a.1,
        buildRow g strategy apply_filter a p = some r := by
  simp [pathRows, List.mem_flatMap, List.mem_filterMap]

theorem mem_withTexts {g : Graph} {r r' : Row} :
    r' ∈ withTexts g r ↔
      ((textsOf g r.prec.cid = [] ∧ r' = r) ∨
        (∃ t ∈ textsOf g r.prec.cid, r' = { r with text := some t })) := by
  unfold withTexts
  cases h : textsOf g r.prec.cid with
  | nil => simp
  | cons t ts =>
    dsimp only
    constructor
    · intro hm
      rcases List.mem_map.1 hm with ⟨u, hu, rfl⟩
      exact Or.inr ⟨u, hu, rfl⟩
    · rintro (⟨h1, -⟩ | ⟨u, hu, rfl⟩)
      · exact absurd h1 (by simp)
      · exact List.mem_map.2 ⟨u, hu, rfl⟩

theorem withTexts_fields {g : Graph} {r r' : Row} (h : r' ∈ withTexts g r) :
    r'.anchorId = r.anchorId ∧ r'.anchorName = r.anchorName ∧
    r'.score = r.score ∧ r'.prec = r.prec := by
  rcases mem_withTexts.1 h with ⟨-, rfl⟩ | ⟨t, -, rfl⟩ <;> exact ⟨rfl, rfl, rfl, rfl⟩

theorem mem_searchRows {g : Graph} {anchors : List (Nat × ℚ)} {strategy : String}
    {apply_filter : Bool} {r' : Row} :
    r' ∈ searchRows g anchors strategy apply_filter ↔
      ∃ r ∈ pathRows g anchors strategy apply_filter, r' ∈ withTexts g r := by
  simp [searchRows, expandTexts, List.mem_flatMap]

theorem pathRows_text_none {g : Graph} {anchors : List (Nat × ℚ)} {strategy : String}
    {apply_filter : Bool} {r : Row} (h : r ∈ pathRows g anchors strategy apply_filter) :
    r.text = none := by
  rcases mem_pathRows.1 h with ⟨a, -, p, -, hb⟩
  exact (buildRow_eq_some hb).2.2.2.2.2.1

theorem mkGroup_eq_some {rows : List Row} {k : Nat × Option String} {r : SearchResult}
    (h : mkGroup rows k = some r) :
    rows.filter (fun x => groupKey x == k) ≠ [] ∧
    r.id = k.1 ∧ r.full_text = k.2 ∧
    r.citation_count = (rows.filter (fun x => groupKey x == k)).length ∧
    r.relevance_score = listMax ((rows.filter (fun x => groupKey x == k)).map (fun x => x.score)) := by
  unfold mkGroup at h
  cases hf : rows.filter (fun x => groupKey x == k) with
  | nil => rw [hf] at h; cases h
  | cons r0 rest =>
    rw [hf] at h
    dsimp only at h
    injection h with h
    subst h
    exact ⟨by simp, rfl, rfl, rfl, rfl⟩

theorem mem_graph_rag_search {g : Graph} {anchors : List (Nat × ℚ)} {strategy : String}
    {apply_filter : Bool} {r : SearchResult}
    (h : r ∈ graph_rag_search g anchors strategy apply_filter) :
    ∃ k ∈ ((searchRows g anchors strategy apply_filter).map groupKey).dedup,
      mkGroup (searchRows g anchors strategy apply_filter) k = some r := by
  unfold graph_rag_search at h
  have h1 := List.take_subset _ _ h
  have h2 := (List.mem_insertionSort resGE).1 h1
  exact List.mem_filterMap.1 h2

theorem mem_filter_group {rows : List Row} {k : Nat × Option String} {x : Row}
    (h : x ∈ rows.filter (fun y => groupKey y == k)) :
    x ∈ rows ∧ x.prec.cid = k.1 ∧ x.text = k.2 := by
  have h1 := List.mem_filter.1 h
  have h2 : groupKey x = k := by
    have := h1.2
    simpa [beq_iff_eq] using this
  exact ⟨h1.1, by rw [show x.prec.cid = (groupKey x).1 from rfl, h2],
    by rw [show x.text = (groupKey x).2 from rfl, h2]⟩

/-- Each row of the query carries a CASE node that the store resolves and
that passes the filter clause. -/
theorem searchRows_case {g : Graph} {anchors : List (Nat × ℚ)} {strategy : String}
    {apply_filter : Bool} {x : Row} (hx : x ∈ searchRows g anchors strategy apply_filter) :
    findCase g x.prec.cid = some x.prec ∧
    passesFilter strategy apply_filter x.prec = true ∧
    (∃ a ∈ anchors, x.score = a.2 ∧ reaches g a.1 x.prec.cid = true) := by
  rcases mem_searchRows.1 hx with ⟨r, hr, hw⟩
  rcases mem_pathRows.1 hr with ⟨a, ha, p, hp, hb⟩
  rcases buildRow_eq_some hb with ⟨hfind, hpass, -, -, hscore, -, hcid⟩
  rcases withTexts_fields hw with ⟨-, -, hscore2, hprec⟩
  refine ⟨?_, ?_, a, ha, ?_, ?_⟩
  · rw [hprec, hcid]; exact hfind
  · rw [hprec]; exact hpass
  · rw [hscore2, hscore]
  · rw [hprec, hcid]
    unfold reaches
    rw [List.any_eq_true]
    exact ⟨p, hp, by simp⟩

theorem groupKey_eq {x : Row} {k : Nat × Option String} (h1 : x.prec.cid = k.1)
    (h2 : x.text = k.2) : groupKey x = k := by
  unfold groupKey
  rw [h1, h2]

theorem group_scores_sub_reaching {g : Graph} {anchors : List (Nat × ℚ)} {strategy : String}
    {apply_filter : Bool} {k : Nat × Option String} {s : ℚ}
    (hs : s ∈ ((searchRows g anchors strategy apply_filter).filter
      (fun x => groupKey x == k)).map (fun x => x.score)) :
    s ∈ reachingScores g anchors k.1 := by
  rcases List.mem_map.1 hs with ⟨x, hx, rfl⟩
  rcases mem_filter_group hx with ⟨hxr, hcid, -⟩
  rcases (searchRows_case hxr).2.2 with ⟨a, ha, hsc, hreach⟩
  unfold reachingScores
  refine List.mem_map.2 ⟨a, List.mem_filter.2 ⟨ha, ?_⟩, hsc.symm⟩
  rw [hcid] at hreach
  exact hreach

theorem reaching_sub_group_scores {g : Graph} {anchors : List (Nat × ℚ)} {strategy : String}
    {apply_filter : Bool} {k : Nat × Option String} {x0 : Row}
    (hx0 : x0 ∈ searchRows g anchors strategy apply_filter) (hk : groupKey x0 = k) {s : ℚ}
    (hs : s ∈ reachingScores g anchors k.1) :
    s ∈ ((searchRows g anchors strategy apply_filter).filter
      (fun x => groupKey x == k)).map (fun x => x.score) := by
  rcases List.mem_map.1 hs with ⟨a, haf, rfl⟩
  have ha : a ∈ anchors := (List.mem_filter.1 haf).1
  have hreach : reaches g a.1 k.1 = true := (List.mem_filter.1 haf).2
  rcases List.any_eq_true.1 hreach with ⟨p, hp, hpt⟩
  have hpt : pathTarget p = k.1 := by simpa using hpt
  have hcid0 : x0.prec.cid = k.1 := by rw [show x0.prec.cid = (groupKey x0).1 from rfl, hk]
  have htext0 : x0.text = k.2 := by rw [show x0.text = (groupKey x0).2 from rfl, hk]
  have hcase := searchRows_case hx0
  have hfind : findCase g (pathTarget p) = some x0.prec := by rw [hpt, ← hcid0]; exact hcase.1
  have hb := buildRow_of_pass (a := a) hfind hcase.2.1
  have hrA : (⟨a.1, nameOf g a.1, a.2, x0.prec, none⟩ : Row) ∈
      pathRows g anchors strategy apply_filter :=
    mem_pathRows.2 ⟨a, ha, p, hp, hb⟩
  rcases mem_searchRows.1 hx0 with ⟨r2, hr2, hw2⟩
  have hprec2 : x0.prec = r2.prec := (withTexts_fields hw2).2.2.2
  rcases mem_withTexts.1 hw2 with ⟨hts, rfl⟩ | ⟨t, ht, hxt⟩
  · -- no attached text: the group text value is null
    have htnone : x0.text = none := pathRows_text_none hr2
    refine List.mem_map.2 ⟨⟨a.1, nameOf g a.1, a.2, x0.prec, none⟩, List.mem_filter.2 ⟨?_, ?_⟩, rfl⟩
    · refine mem_searchRows.2 ⟨_, hrA, ?_⟩
      rw [mem_withTexts]
      exact Or.inl ⟨hts, rfl⟩
    · rw [beq_iff_eq]
      exact groupKey_eq hcid0 (htnone ▸ htext0)
  · -- the group text value is some t, attached to the precedent
    have htq : x0.text = some t := by rw [hxt]
    have hts' : t ∈ textsOf g x0.prec.cid := by rw [hprec2]; exact ht
    refine List.mem_map.2
      ⟨{ (⟨a.1, nameOf g a.1, a.2, x0.prec, none⟩ : Row) with text := some t },
        List.mem_filter.2 ⟨?_, ?_⟩, rfl⟩
    · refine mem_searchRows.2 ⟨_, hrA, ?_⟩
      rw [mem_withTexts]
      exact Or.inr ⟨t, hts', rfl⟩
    · rw [beq_iff_eq]
      exact groupKey_eq hcid0 (htq ▸ htext0)

/-! ### Concrete stores used by witnesses and counterexamples -/

/-- A small store: anchor case 7 cites case 1, whose decisionSummary
contains Reversed and which has one attached text. -/
def gEx1 : Graph :=
  ⟨[⟨7, "A", none, none⟩, ⟨1, "P", some "theft", some "Reversed"⟩],
   [(7, 1)], [(1, "full opinion")]⟩

/-- The single Gold-tier result of gEx1 for the anchor list [(7, 9/10)]. -/
def resEx1 : SearchResult :=
  { id := 1, title := "P", offense := some "theft", decision := some "Reversed",
    full_text := some "full opinion", citation_count := 1, found_via := ["A"],
    relevance_score := mkRat 9 10 }

/-- The empty store. -/
def gEmpty : Graph := ⟨[], [], []⟩

/-- A store where anchor 0 reaches case 1 over two distinct paths:
directly and through case 2. -/
def gMulti : Graph :=
  ⟨[⟨0, "A", none, none⟩, ⟨1, "P", none, none⟩, ⟨2, "M", none, none⟩],
   [(0, 1), (0, 2), (2, 1)], []⟩

/-- A store where case 1 carries two attached TEXT nodes with different
text values. -/
def gTwoTexts : Graph :=
  ⟨[⟨0, "A", none, none⟩, ⟨1, "P", none, none⟩], [(0, 1)], [(1, "t1"), (1, "t2")]⟩

/-- A store for the benchmark queries: case 2 cites case 1 and both carry
an offense. -/
def gBench : Graph :=
  ⟨[⟨1, "S", some "theft", none⟩, ⟨2, "A", some "robbery", none⟩], [(2, 1)], []⟩

/-! ### Claim C3 -/

/-- Claim C3: every record returned by graph_rag_search carries as
relevance_score the maximum (not the sum) of the similarity scores of the
anchors whose traversal reached it; the output is sorted by
citation_count descending with relevance_score descending as tie-breaker;
and the output has at most 5 entries. -/
theorem C3_relevance_max_order_limit (g : Graph) (anchors : List (Nat × ℚ))
    (strategy : String) (apply_filter : Bool) :
    (∀ r ∈ graph_rag_search g anchors strategy apply_filter,
      r.relevance_score = listMax (reachingScores g anchors r.id)) ∧
    List.Sorted resGE (graph_rag_search g anchors strategy apply_filter) ∧
    (graph_rag_search g anchors strategy apply_filter).length ≤ 5 := by
  refine ⟨?_, ?_, ?_⟩
  · intro r hr
    rcases mem_graph_rag_search hr with ⟨k, hkmem, hmk⟩
    rcases mkGroup_eq_some hmk with ⟨hne, hid, -, -, hrel⟩
    rcases List.exists_mem_of_ne_nil _ hne with ⟨x1, hx1⟩
    rcases mem_filter_group hx1 with ⟨hx1r, hcid1, htext1⟩
    have hk1 : groupKey x1 = k := groupKey_eq hcid1 htext1
    have hne1 : ((searchRows g anchors strategy apply_filter).filter
        (fun x => groupKey x == k)).map (fun x => x.score) ≠ [] := by
      intro hmap
      rw [List.map_eq_nil_iff] at hmap
      exact hne hmap
    have hne2 : reachingScores g anchors k.1 ≠ [] :=
      List.ne_nil_of_mem (group_scores_sub_reaching (List.mem_map.2 ⟨x1, hx1, rfl⟩))
    rw [hrel, hid]
    exact listMax_congr hne1 hne2 (fun s hs => group_scores_sub_reaching hs)
      (fun s hs => reaching_sub_group_scores hx1r hk1 hs)
  · unfold graph_rag_search
    exact (List.sorted_insertionSort resGE _).sublist (List.take_sublist _ _)
  · unfold graph_rag_search
    exact List.length_take_le _ _

/-- Witness for C3: concrete evaluation on gEx1. -/
theorem C3_witness :
    resEx1.relevance_score = listMax (reachingScores gEx1 [(7, mkRat 9 10)] resEx1.id) :=
  (C3_relevance_max_order_limit gEx1 [(7, mkRat 9 10)] "defense" true).1 resEx1 (by decide)

/-! ### Claim C1 -/

/-- Claim C1: the cascade in main evaluates Gold, Silver, Bronze strictly
in that order and terminates at the first tier producing a non-empty
result set.  When Gold is non-empty, the reported tier is Gold, the
results are exactly the Gold output, and Silver and Bronze are never
invoked.  When Gold and Silver are both empty, Bronze is always invoked
and its result, even when empty, is final. -/
theorem C1_cascade_order (g : Graph) (idx : List (Nat × ℚ)) (strategy : String) :
    (graph_rag_search g idx strategy true ≠ [] →
      (runCascade g idx strategy).method = "Gold" ∧
      (runCascade g idx strategy).results = graph_rag_search g idx strategy true ∧
      "Silver" ∉ (runCascade g idx strategy).invoked ∧
      "Bronze" ∉ (runCascade g idx strategy).invoked) ∧
    (graph_rag_search g idx strategy true = [] →
      graph_rag_search g idx strategy false = [] →
      "Bronze" ∈ (runCascade g idx strategy).invoked ∧
      (runCascade g idx strategy).method = "Bronze" ∧
      (runCascade g idx strategy).results = vector_only_search g idx) := by
  constructor
  · intro h
    unfold runCascade cascade
    rw [if_pos h]
    refine ⟨rfl, rfl, ?_, ?_⟩
    · show "Silver" ∉ ["Gold"]
      decide
    · show "Bronze" ∉ ["Gold"]
      decide
  · intro h1 h2
    unfold runCascade cascade
    rw [if_neg (fun hc => hc h1), if_neg (fun hc => hc h2)]
    refine ⟨?_, rfl, rfl⟩
    show "Bronze" ∈ ["Gold", "Silver", "Bronze"]
    decide

/-- Witness for C1: Gold fires on gEx1; on the empty store the cascade
falls through to Bronze. -/
theorem C1_witness :
    ((runCascade gEx1 [(7, mkRat 9 10)] "defense").method = "Gold" ∧
     (runCascade gEx1 [(7, mkRat 9 10)] "defense").results =
       graph_rag_search gEx1 [(7, mkRat 9 10)] "defense" true ∧
     "Silver" ∉ (runCascade gEx1 [(7, mkRat 9 10)] "defense").invoked ∧
     "Bronze" ∉ (runCascade gEx1 [(7, mkRat 9 10)] "defense").invoked) ∧
    ("Bronze" ∈ (runCascade gEmpty [] "defense").invoked ∧
     (runCascade gEmpty [] "defense").method = "Bronze" ∧
     (runCascade gEmpty [] "defense").results = vector_only_search gEmpty []) :=
  ⟨(C1_cascade_order gEx1 [(7, mkRat 9 10)] "defense").1 (by decide),
   (C1_cascade_order gEmpty [] "defense").2 (by decide) (by decide)⟩

/-! ### Claim C8 -/

/-- Claim C8: a query failure inside a tier is caught by that tier's
try/except and degrades that tier to the empty list instead of
propagating; the cascade treats a failed tier exactly as an empty tier,
and Bronze is attempted whenever Gold and Silver each errored or returned
empty, so no failure aborts the cascade. -/
theorem C8_failure_degrades (e : String)
    (goldE silverE bronzeE : Except String (List SearchResult))
    (h1 : runTier goldE = []) (h2 : runTier silverE = []) :
    runTier (Except.error e) = [] ∧
    cascadeE (Except.error e) silverE bronzeE = cascadeE (Except.ok []) silverE bronzeE ∧
    "Bronze" ∈ (cascadeE goldE silverE bronzeE).invoked ∧
    (cascadeE goldE silverE bronzeE).results = runTier bronzeE := by
  refine ⟨rfl, rfl, ?_, ?_⟩
  · unfold cascadeE cascade
    rw [h1, h2, if_neg (fun hc => hc rfl), if_neg (fun hc => hc rfl)]
    show "Bronze" ∈ ["Gold", "Silver", "Bronze"]
    decide
  · unfold cascadeE cascade
    rw [h1, h2, if_neg (fun hc => hc rfl), if_neg (fun hc => hc rfl)]

/-- Witness for C8: both upper tiers fail, Bronze still runs. -/
theorem C8_witness :
    runTier (Except.error "boom") = [] ∧
    cascadeE (Except.error "boom") (Except.error "silver failed") (Except.ok []) =
      cascadeE (Except.ok []) (Except.error "silver failed") (Except.ok []) ∧
    "Bronze" ∈ (cascadeE (Except.error "gold failed") (Except.error "silver failed")
      (Except.ok [])).invoked ∧
    (cascadeE (Except.error "gold failed") (Except.error "silver failed")
      (Except.ok [])).results = runTier (Except.ok ([] : List SearchResult)) :=
  C8_failure_degrades "boom" (Except.error "gold failed") (Except.error "silver failed")
    (Except.ok []) rfl rfl

/-! ### Claim C5 -/

/-- Counterexample to claim C5 as stated: at relevance_score 987/1000 and
citation_count 0 the code displays min(int(98.7), 99) = 98, while the
claimed formula min(round(98.7) + 0, 99) gives 99. -/
theorem C5_counterexample :
    confidence (mkRat 987 1000) 0 = 98 ∧ confidenceSpec (mkRat 987 1000) 0 = 99 ∧
    confidence (mkRat 987 1000) 0 ≠ confidenceSpec (mkRat 987 1000) 0 := by
  have h : (mkRat 987 1000 : ℚ) * 100 = mkRat 987 10 := by
    rw [Rat.mkRat_eq_div, Rat.mkRat_eq_div]
    norm_num
  unfold confidence confidenceSpec ratTrunc
  rw [h]
  exact ⟨by decide, by decide, by decide⟩

/-- Claim C5 amended: the display truncates rather than rounds, that is
confidence = min(int(relevance_score * 100) + citation_count * 5, 99);
for every relevance_score in [0, 1] and citation_count at least 0 the
computed confidence satisfies 0 at most confidence at most 99. -/
theorem C5_amended_bounds (rs : ℚ) (cc : Nat) (h0 : 0 ≤ rs) (h1 : rs ≤ 1) :
    0 ≤ confidence rs cc ∧ confidence rs cc ≤ 99 := by
  constructor
  · unfold confidence ratTrunc
    refine le_min (add_nonneg ?_ ?_) (by norm_num)
    · refine Int.tdiv_nonneg ?_ (Int.natCast_nonneg _)
      exact Rat.num_nonneg.2 (mul_nonneg h0 (by norm_num))
    · exact mul_nonneg (Int.natCast_nonneg _) (by norm_num)
  · unfold confidence
    exact min_le_right _ _

/-- Witness for C5 amended: bounds hold at 987/1000 with 3 citations. -/
theorem C5_witness :
    0 ≤ confidence (mkRat 987 1000) 3 ∧ confidence (mkRat 987 1000) 3 ≤ 99 :=
  C5_amended_bounds (mkRat 987 1000) 3 (by decide) (by decide)

/-! ### Claim C9 -/

/-- Counterexample to claim C9 as stated: get_embedding of app.py submits
the text unmodified, so a 9001-character input reaches the provider above
the 9000-character budget that the benchmark path enforces. -/
theorem C9_counterexample :
    9000 < (appEmbedContent (List.replicate 9001 'a')).length ∧
    (benchEmbedContent (List.replicate 9001 'a')).length = 9000 := by
  constructor
  · unfold appEmbedContent
    rw [List.length_replicate]
    norm_num
  · unfold benchEmbedContent
    rw [List.length_take, List.length_replicate]
    omega

/-- Claim C9 amended: only the benchmark path truncates its input, to at
most 9000 characters; the interactive path of app.py submits the text
unmodified, with no bound. -/
theorem C9_amended_truncation (text : List Char) :
    (benchEmbedContent text).length ≤ 9000 ∧ appEmbedContent text = text := by
  constructor
  · unfold benchEmbedContent
    rw [List.length_take]
    exact min_le_left _ _
  · rfl

/-! ### Claim C10 -/

/-- Claim C10: every Bronze-tier (vector_only_search) record has
citation_count 0 and found_via [], so the authority bonus never
contributes and its confidence reduces to min(int(relevance_score * 100), 99). -/
theorem C10_bronze_no_bonus (g : Graph) (idx : List (Nat × ℚ)) :
    ∀ r ∈ vector_only_search g idx,
      r.citation_count = 0 ∧ r.found_via = [] ∧
      confidence r.relevance_score r.citation_count =
        min (ratTrunc (r.relevance_score * 100)) 99 := by
  intro r hr
  have h1 : r ∈ idx.flatMap (fun a => vecRecords g a.1 a.2) := by
    unfold vector_only_search at hr
    exact (List.mem_insertionSort scoreGE).1 hr
  rcases List.mem_flatMap.1 h1 with ⟨a, ha, hrv⟩
  have hfields : r.citation_count = 0 ∧ r.found_via = [] := by
    unfold vecRecords at hrv
    cases ht : textsOf g a.1 with
    | nil =>
      rw [ht] at hrv
      dsimp only at hrv
      rcases List.mem_singleton.1 hrv with rfl
      exact ⟨rfl, rfl⟩
    | cons t ts =>
      rw [ht] at hrv
      dsimp only at hrv
      rcases List.mem_map.1 hrv with ⟨u, hu, rfl⟩
      exact ⟨rfl, rfl⟩
  refine ⟨hfields.1, hfields.2, ?_⟩
  rw [hfields.1]
  unfold confidence
  norm_num

/-- The Bronze record of gEx1 at score 1/2. -/
def resEx10 : SearchResult :=
  { id := 1, title := "P", offense := some "theft", decision := some "Reversed",
    full_text := some "full opinion", citation_count := 0, found_via := [],
    relevance_score := mkRat 1 2 }

/-- Witness for C10: concrete Bronze record of gEx1. -/
theorem C10_witness :
    resEx10.citation_count = 0 ∧ resEx10.found_via = [] ∧
    confidence resEx10.relevance_score resEx10.citation_count =
      min (ratTrunc (resEx10.relevance_score * 100)) 99 :=
  C10_bronze_no_bonus gEx1 [(1, mkRat 1 2)] resEx10 (by decide)

/-! ### Claim C4 -/

theorem scoreLoop_hard {tids : List String} {toffs : List (List Char)} :
    ∀ {l : List CaseRef} {acc : ℚ}, (∃ f ∈ l, f.id ∈ tids) →
      scoreLoop tids toffs l acc = 1
  | [], _, h => by simp at h
  | f :: rest, acc, h => by
    unfold scoreLoop
    by_cases hid : f.id ∈ tids
    · rw [if_pos hid]
    · rw [if_neg hid]
      have h2 : ∃ x ∈ rest, x.id ∈ tids := by
        rcases h with ⟨x, hx, hxid⟩
        rcases List.mem_cons.1 hx with rfl | hx2
        · exact absurd hxid hid
        · exact ⟨x, hx2, hxid⟩
      by_cases hoff : foundOffense f.offense ∈ toffs
      · rw [if_pos hoff]; exact scoreLoop_hard h2
      · rw [if_neg hoff]; exact scoreLoop_hard h2

theorem scoreLoop_half {tids : List String} {toffs : List (List Char)} :
    ∀ {l : List CaseRef}, (∀ f ∈ l, f.id ∉ tids) →
      scoreLoop tids toffs l (mkRat 1 2) = mkRat 1 2
  | [], _ => rfl
  | f :: rest, h => by
    unfold scoreLoop
    rw [if_neg (h f (List.mem_cons_self f rest))]
    by_cases hoff : foundOffense f.offense ∈ toffs
    · rw [if_pos hoff]
      exact scoreLoop_half (fun x hx => h x (List.mem_cons_of_mem f hx))
    · rw [if_neg hoff]
      exact scoreLoop_half (fun x hx => h x (List.mem_cons_of_mem f hx))

theorem scoreLoop_soft {tids : List String} {toffs : List (List Char)} :
    ∀ {l : List CaseRef} {acc : ℚ}, (∀ f ∈ l, f.id ∉ tids) →
      (∃ f ∈ l, foundOffense f.offense ∈ toffs) →
      scoreLoop tids toffs l acc = mkRat 1 2
  | [], _, _, hex => by simp at hex
  | f :: rest, acc, hall, hex => by
    unfold scoreLoop
    rw [if_neg (hall f (List.mem_cons_self f rest))]
    by_cases hoff : foundOffense f.offense ∈ toffs
    · rw [if_pos hoff]
      exact scoreLoop_half (fun x hx => hall x (List.mem_cons_of_mem f hx))
    · rw [if_neg hoff]
      have hex2 : ∃ x ∈ rest, foundOffense x.offense ∈ toffs := by
        rcases hex with ⟨x, hx, hxoff⟩
        rcases List.mem_cons.1 hx with rfl | hx2
        · exact absurd hxoff hoff
        · exact ⟨x, hx2, hxoff⟩
      exact scoreLoop_soft (fun x hx => hall x (List.mem_cons_of_mem f hx)) hex2

theorem scoreLoop_none {tids : List String} {toffs : List (List Char)} :
    ∀ {l : List CaseRef} {acc : ℚ}, (∀ f ∈ l, f.id ∉ tids) →
      (∀ f ∈ l, foundOffense f.offense ∉ toffs) →
      scoreLoop tids toffs l acc = acc
  | [], _, _, _ => rfl
  | f :: rest, acc, hid, hoff => by
    unfold scoreLoop
    rw [if_neg (hid f (List.mem_cons_self f rest)),
      if_neg (hoff f (List.mem_cons_self f rest))]
    exact scoreLoop_none (fun x hx => hid x (List.mem_cons_of_mem f hx))
      (fun x hx => hoff x (List.mem_cons_of_mem f hx))

/-- Claim C4: with a non-empty ground-truth list, calculate_score returns
exactly 1.0 as soon as any retrieved id is a ground-truth id (the scan
short-circuits on the first hard match in list order, even when a soft
match was seen earlier); otherwise 0.5 when some retrieved normalized
offense equals a normalized truthy ground-truth offense, no matter how
many soft matches occur; otherwise 0.0. -/
theorem C4_score_cases (gt retrieved : List CaseRef) (hne : gt ≠ []) :
    ((∃ f ∈ retrieved, f.id ∈ gt.map (fun i => i.id)) →
      calculate_score gt retrieved = 1) ∧
    ((∀ f ∈ retrieved, f.id ∉ gt.map (fun i => i.id)) →
      (∃ f ∈ retrieved, foundOffense f.offense ∈ trueOffenses gt) →
      calculate_score gt retrieved = mkRat 1 2) ∧
    ((∀ f ∈ retrieved, f.id ∉ gt.map (fun i => i.id)) →
      (∀ f ∈ retrieved, foundOffense f.offense ∉ trueOffenses gt) →
      calculate_score gt retrieved = 0) :=
  ⟨fun h => scoreLoop_hard h,
   fun h1 h2 => scoreLoop_soft h1 h2,
   fun h1 h2 => scoreLoop_none h1 h2⟩

/-- Witness for C4: the hard match on id a wins and yields 1.0 even
though the soft offense match on theft comes earlier in the scan. -/
theorem C4_witness :
    calculate_score [⟨"a", some "Theft "⟩] [⟨"b", some "theft"⟩, ⟨"a", none⟩] = 1 :=
  (C4_score_cases [⟨"a", some "Theft "⟩] [⟨"b", some "theft"⟩, ⟨"a", none⟩]
    (by decide)).1 ⟨⟨"a", none⟩, by decide, by decide⟩

/-! ### Claim C6 -/

/-- Counterexample to claim C6 as stated: in graph mode retrieve_cases
filters the source case out of the anchors only; on gBench with source
case 1 and index answer [(2, 1)], the source case itself comes back as
the returned precedent. -/
theorem C6_counterexample :
    retrieve_cases gBench [(2, mkRat 1 1)] 1 true = [(1, some "theft")] ∧
    ¬ (∀ x ∈ retrieve_cases gBench [(2, mkRat 1 1)] 1 true, x.1 ≠ 1) :=
  ⟨by decide, by decide⟩

theorem bVecRecord_eq_some {g : Graph} {orig : Nat} {a : Nat × ℚ}
    {y : Nat × Option String × ℚ} (h : bVecRecord g orig a = some y) :
    y.1 = a.1 ∧ a.1 ≠ orig := by
  unfold bVecRecord at h
  cases hf : findCase g a.1 with
  | none => rw [hf] at h; cases h
  | some c =>
    rw [hf] at h
    dsimp only at h
    by_cases hcond : (!(a.1 == orig) && c.offense.isSome) = true
    · rw [if_pos hcond] at h
      injection h with h
      subst h
      refine ⟨rfl, ?_⟩
      intro hc
      rw [hc] at hcond
      simp at hcond
    · rw [if_neg hcond] at h; cases h

/-- Claim C6 amended: the baseline (vector-only) mode excludes the source
case from its results; the graph mode excludes the source case only from
the anchors (index hits equal to the source are discarded, but the source
may still be returned as a traversal target). -/
theorem C6_amended_exclusion (g : Graph) (idx : List (Nat × ℚ)) (orig : Nat) :
    (∀ x ∈ retrieve_cases g idx orig false, x.1 ≠ orig) ∧
    retrieve_cases g idx orig true =
      retrieve_cases g (idx.filter (fun a => !(a.1 == orig))) orig true := by
  constructor
  · intro x hx
    unfold retrieve_cases at hx
    rw [if_neg (by simp)] at hx
    rcases List.mem_map.1 hx with ⟨y, hy, rfl⟩
    have hy2 := (List.mem_insertionSort bScoreGE).1 (List.take_subset _ _ hy)
    rcases List.mem_filterMap.1 hy2 with ⟨a, ha, hfa⟩
    rcases bVecRecord_eq_some hfa with ⟨h1, h2⟩
    rw [h1]
    exact h2
  · unfold retrieve_cases
    rw [if_pos rfl, if_pos rfl]
    have hrows : bGraphRows g (idx.filter (fun a => !(a.1 == orig))) orig =
        bGraphRows g idx orig := by
      unfold bGraphRows
      rw [List.filter_filter]
      congr 1
      apply List.filter_congr
      intro a _
      rw [Bool.and_self]
    rw [hrows]

/-- Witness for C6 amended, on gBench: the baseline retrieval with source
case 1 returns only case 2, and graph mode ignores index hits on the
source. -/
theorem C6_witness :
    ((2 : Nat), (some "robbery" : Option String)).1 ≠ 1 ∧
    retrieve_cases gBench [(2, mkRat 1 1), (1, mkRat 2 1)] 1 true =
      retrieve_cases gBench
        ([(2, mkRat 1 1), (1, mkRat 2 1)].filter (fun a => !(a.1 == 1))) 1 true :=
  ⟨(C6_amended_exclusion gBench [(2, mkRat 1 1), (1, mkRat 2 1)] 1).1
      (2, some "robbery") (by decide),
   (C6_amended_exclusion gBench [(2, mkRat 1 1), (1, mkRat 2 1)] 1).2⟩

/-! ### Claims C2 and C7: counting and dedup under single texts

The OPTIONAL MATCH multiplies rows by the attached text values, so both
the per-precedent row count and the one-output-per-precedent property
hold when each case carries at most one TEXT node. -/

theorem withTexts_single {g : Graph} {r : Row} (h1 : (textsOf g r.prec.cid).length ≤ 1)
    (h2 : r.text = none) :
    withTexts g r = [{ r with text := (textsOf g r.prec.cid).head? }] := by
  unfold withTexts
  cases ht : textsOf g r.prec.cid with
  | nil =>
    dsimp only
    obtain ⟨ra, rn, rs, rp, rt⟩ := r
    dsimp only at h2
    rw [h2]
    rfl
  | cons t ts =>
    cases ts with
    | nil => rfl
    | cons t2 ts2 =>
      rw [ht] at h1
      simp at h1

theorem expandTexts_eq_map {g : Graph} (htext : ∀ i, (textsOf g i).length ≤ 1) :
    ∀ {rows : List Row}, (∀ r ∈ rows, r.text = none) →
      expandTexts g rows =
        rows.map (fun r => { r with text := (textsOf g r.prec.cid).head? })
  | [], _ => rfl
  | r :: rest, h => by
    have ih := expandTexts_eq_map htext (fun x hx => h x (List.mem_cons_of_mem r hx))
    unfold expandTexts at ih ⊢
    rw [List.flatMap_cons, withTexts_single (htext r.prec.cid) (h r (List.mem_cons_self r rest)),
      List.singleton_append, List.map_cons, ih]

theorem groupKey_shape {g : Graph} {anchors : List (Nat × ℚ)} {strategy : String}
    {apply_filter : Bool} (htext : ∀ i, (textsOf g i).length ≤ 1) {x : Row}
    (hx : x ∈ searchRows g anchors strategy apply_filter) :
    (groupKey x).2 = (textsOf g (groupKey x).1).head? := by
  rcases mem_searchRows.1 hx with ⟨r, hr, hw⟩
  rw [withTexts_single (htext r.prec.cid) (pathRows_text_none hr)] at hw
  rcases List.mem_singleton.1 hw with rfl
  rfl

theorem count_filterMap_paths {g : Graph} {strategy : String} {apply_filter : Bool}
    {a : Nat × ℚ} {tgt : Nat} {c : CaseNode}
    (hc : findCase g tgt = some c) (hp : passesFilter strategy apply_filter c = true) :
    ∀ ps : List (List (Nat × Nat)),
      ((ps.filterMap (buildRow g strategy apply_filter a)).filter
        (fun r => r.prec.cid == tgt)).length =
      (ps.filter (fun p => pathTarget p == tgt)).length
  | [] => rfl
  | p :: ps => by
    have ih := count_filterMap_paths (a := a) hc hp ps
    by_cases hpt : pathTarget p = tgt
    · have hb : buildRow g strategy apply_filter a p =
          some ⟨a.1, nameOf g a.1, a.2, c, none⟩ := by
        apply buildRow_of_pass _ hp
        rw [hpt]
        exact hc
      simp only [List.filterMap_cons, hb, List.filter_cons]
      have h1 : ((⟨a.1, nameOf g a.1, a.2, c, none⟩ : Row).prec.cid == tgt) = true := by
        simp [findCase_cid hc]
      have h2 : (pathTarget p == tgt) = true := by simp [hpt]
      rw [h1, h2, if_pos rfl, if_pos rfl, List.length_cons, List.length_cons, ih]
    · have h2 : (pathTarget p == tgt) = false := by simp [hpt]
      cases hb : buildRow g strategy apply_filter a p with
      | none =>
        simp only [List.filterMap_cons, hb, List.filter_cons]
        rw [h2, if_neg (by simp), ih]
      | some row =>
        have hcid : row.prec.cid = pathTarget p := (buildRow_eq_some hb).2.2.2.2.2.2
        simp only [List.filterMap_cons, hb, List.filter_cons]
        have h1 : (row.prec.cid == tgt) = false := by simp [hcid, hpt]
        rw [h1, h2, if_neg (by simp), if_neg (by simp), ih]

theorem count_pathRows_eq {g : Graph} {strategy : String} {apply_filter : Bool}
    {tgt : Nat} {c : CaseNode}
    (hc : findCase g tgt = some c) (hp : passesFilter strategy apply_filter c = true) :
    ∀ anchors : List (Nat × ℚ),
      ((pathRows g anchors strategy apply_filter).filter
        (fun r => r.prec.cid == tgt)).length =
      numAnchorPathsTo g anchors tgt
  | [] => rfl
  | a :: as => by
    have ih := count_pathRows_eq hc hp as
    unfold pathRows numAnchorPathsTo at ih ⊢
    rw [List.flatMap_cons, List.filter_append, List.length_append, List.map_cons,
      List.sum_cons, count_filterMap_paths (a := a) hc hp (pathsFrom g a.1), ih]

/-- Counterexample to claim C2 as stated: in gMulti the single anchor 0
reaches case 1 over two distinct paths (directly and through case 2), and
count(anchorCase) counts one per path, so citation_count is 2 while only
1 distinct anchor reached the precedent. -/
theorem C2_counterexample :
    ((graph_rag_search gMulti [(0, mkRat 1 1)] "defense" false).map
      (fun r => (r.id, r.citation_count))) = [(1, 2), (2, 1)] ∧
    numDistinctAnchorsReaching gMulti [(0, mkRat 1 1)] 1 = 1 ∧
    ¬ (∀ r ∈ graph_rag_search gMulti [(0, mkRat 1 1)] "defense" false,
        r.citation_count = numDistinctAnchorsReaching gMulti [(0, mkRat 1 1)] r.id) :=
  ⟨by decide, by decide, by decide⟩

/-- Claim C2 amended: when every case carries at most one attached TEXT
node, each returned citation_count equals the number of distinct
(anchor, 1-2-hop citation path) pairs that reached the precedent — a
positive integer in which a single anchor contributes once per distinct
path, not once in total. -/
theorem C2_amended_path_count (g : Graph) (anchors : List (Nat × ℚ)) (strategy : String)
    (apply_filter : Bool) (htext : ∀ i, (textsOf g i).length ≤ 1) :
    ∀ r ∈ graph_rag_search g anchors strategy apply_filter,
      r.citation_count = numAnchorPathsTo g anchors r.id ∧ 0 < r.citation_count := by
  intro r hr
  rcases mem_graph_rag_search hr with ⟨k, hkmem, hmk⟩
  rcases mkGroup_eq_some hmk with ⟨hne, hid, -, hcount, -⟩
  have hpos : 0 < r.citation_count := by
    rw [hcount]
    exact List.length_pos.2 hne
  rcases List.exists_mem_of_ne_nil _ hne with ⟨x1, hx1⟩
  rcases mem_filter_group hx1 with ⟨hx1r, hcid1, htext1⟩
  have hcase := searchRows_case hx1r
  have hc : findCase g k.1 = some x1.prec := by
    rw [← hcid1]
    exact hcase.1
  have hshape : k.2 = (textsOf g k.1).head? := by
    have hk1 : groupKey x1 = k := groupKey_eq hcid1 htext1
    rw [← hk1]
    exact groupKey_shape htext hx1r
  have hmap : searchRows g anchors strategy apply_filter =
      (pathRows g anchors strategy apply_filter).map
        (fun x => { x with text := (textsOf g x.prec.cid).head? }) := by
    unfold searchRows
    exact expandTexts_eq_map htext (fun x hx => pathRows_text_none hx)
  rw [hmap, List.filter_map, List.length_map] at hcount
  have hpred : ((pathRows g anchors strategy apply_filter).filter
      ((fun x => groupKey x == k) ∘ (fun x => { x with text := (textsOf g x.prec.cid).head? }))) =
      ((pathRows g anchors strategy apply_filter).filter (fun x => x.prec.cid == k.1)) := by
    apply List.filter_congr
    intro x hx
    by_cases hcx : x.prec.cid = k.1
    · simp [Function.comp, groupKey, Prod.ext_iff, hcx, hshape]
    · simp [Function.comp, groupKey, Prod.ext_iff, hcx]
  rw [hpred, count_pathRows_eq hc hcase.2.1 anchors] at hcount
  refine ⟨?_, hpos⟩
  rw [hcount, hid]

/-- The top result of gMulti with its two anchor paths. -/
def resEx2 : SearchResult :=
  { id := 1, title := "P", offense := none, decision := none, full_text := none,
    citation_count := 2, found_via := ["A"], relevance_score := mkRat 1 1 }

/-- Witness for C2 amended: in gMulti the citation_count 2 of case 1 is
exactly its number of distinct anchor paths. -/
theorem C2_witness :
    resEx2.citation_count = numAnchorPathsTo gMulti [(0, mkRat 1 1)] resEx2.id ∧
    0 < resEx2.citation_count :=
  C2_amended_path_count gMulti [(0, mkRat 1 1)] "defense" false
    (fun i => by simp [textsOf, gMulti]) resEx2 (by decide)

/-- Counterexample to claim C7 as stated: in gTwoTexts the precedent case
1 carries two TEXT nodes with different values, the Cypher grouping key
includes the text value, and the id 1 appears twice in one output. -/
theorem C7_counterexample :
    ((graph_rag_search gTwoTexts [(0, mkRat 1 1)] "defense" false).map
      (fun r => r.id)) = [1, 1] ∧
    ¬ ((graph_rag_search gTwoTexts [(0, mkRat 1 1)] "defense" false).map
      (fun r => r.id)).Nodup :=
  ⟨by decide, by decide⟩

/-- Claim C7 amended: when every case carries at most one attached TEXT
node, no case id appears twice in a single graph_rag_search output,
regardless of how many anchors or hop paths reach the same precedent. -/
theorem C7_amended_nodup (g : Graph) (anchors : List (Nat × ℚ)) (strategy : String)
    (apply_filter : Bool) (htext : ∀ i, (textsOf g i).length ≤ 1) :
    ((graph_rag_search g anchors strategy apply_filter).map (fun r => r.id)).Nodup := by
  have hkeys : List.Pairwise (fun k1 k2 : Nat × Option String => k1.1 ≠ k2.1)
      (((searchRows g anchors strategy apply_filter).map groupKey).dedup) := by
    refine List.Pairwise.imp_of_mem ?_
      (List.nodup_dedup ((searchRows g anchors strategy apply_filter).map groupKey))
    intro k1 k2 h1 h2 hne hfst
    apply hne
    rcases List.mem_map.1 (List.mem_dedup.1 h1) with ⟨x1, hx1, rfl⟩
    rcases List.mem_map.1 (List.mem_dedup.1 h2) with ⟨x2, hx2, rfl⟩
    have s1 := groupKey_shape htext hx1
    have s2 := groupKey_shape htext hx2
    have : (groupKey x1).2 = (groupKey x2).2 := by
      rw [s1, s2, hfst]
    exact Prod.ext hfst this
  have hgroups : List.Pairwise (fun r1 r2 : SearchResult => r1.id ≠ r2.id)
      ((((searchRows g anchors strategy apply_filter).map groupKey).dedup).filterMap
        (mkGroup (searchRows g anchors strategy apply_filter))) := by
    rw [List.pairwise_filterMap]
    refine hkeys.imp ?_
    intro k1 k2 hne12
    intro r1 h1 r2 h2
    rw [Option.mem_def] at h1 h2
    rw [(mkGroup_eq_some h1).2.1, (mkGroup_eq_some h2).2.1]
    exact hne12
  have hperm := List.perm_insertionSort resGE
    ((((searchRows g anchors strategy apply_filter).map groupKey).dedup).filterMap
      (mkGroup (searchRows g anchors strategy apply_filter)))
  have hsorted : List.Pairwise (fun r1 r2 : SearchResult => r1.id ≠ r2.id)
      (List.insertionSort resGE
        ((((searchRows g anchors strategy apply_filter).map groupKey).dedup).filterMap
          (mkGroup (searchRows g anchors strategy apply_filter)))) :=
    (hperm.pairwise_iff (fun h => h.symm)).2 hgroups
  have htaken := hsorted.sublist (List.take_sublist 5 _)
  unfold graph_rag_search
  exact List.pairwise_map.2 htaken

/-- Witness for C7 amended: on gMulti (one text per case — none at all)
the output ids are distinct. -/
theorem C7_witness :
    ((graph_rag_search gMulti [(0, mkRat 1 1)] "defense" false).map
      (fun r => r.id)).Nodup :=
  C7_amended_nodup gMulti [(0, mkRat 1 1)] "defense" false
    (fun i => by simp [textsOf, gMulti])
